import Mathlib

/-!
Shallow embedding of the lexical analyzer in `src/lex.rs` of the ncc
repository, together with theorems settling the frozen claims about it.

The source file is read into a byte buffer; we model the buffer as a
`List Nat` of byte values (each < 256 in practice) and every comparison
`bytes[i] as char == c` as a comparison of the byte value with the ASCII
code of `c`.  Token lexemes (`String::from_utf8_lossy(&bytes[a..b])`) are
kept as the byte slice itself; for the renderer they are decoded to a
`String` by `decodeBytes`, which agrees with `from_utf8_lossy` on ASCII
data.  `std::process::exit(-1)` after an `eprintln!` diagnostic is modelled
as returning a `LexError` value carrying exactly the data interpolated
into the diagnostic message.  Loops are written with an explicit fuel
argument; `ScanRes.spin` marks fuel exhaustion and is proved unreachable
for the fuel the wrappers supply.
-/

namespace Ncc

/-- The byte slice `bytes[a..b]` (as used by `&bytes[start..index]`). -/
def slice (bytes : List Nat) (a b : Nat) : List Nat :=
  (bytes.drop a).take (b - a)

/-- `KeyWordType` from src/lex.rs (declared, never produced by the lexer). -/
inductive KeyWordType where
  | KVoid | KChar | KInt | KFloat | Kdouble
deriving DecidableEq

/-- `OperatorType` from src/lex.rs. -/
inductive OperatorType where
  | OpEq | OpAssign
deriving DecidableEq

/-- `TokenType` from src/lex.rs. -/
inductive TokenType where
  | Note
  | NewLine
  | Space
  | KeyWord (k : KeyWordType)
  | Number
  | FlotNumber
  | Str
  | Char
  | Identifier
  | Operator (o : OperatorType)
deriving DecidableEq

/-- `Location` from src/lex.rs. -/
structure Location where
  file : String
  line : Nat
  column : Nat
deriving DecidableEq

/-- `Token` from src/lex.rs; `source` is the consumed byte slice. -/
structure Token where
  loc : Location
  token_type : TokenType
  source : List Nat
deriving DecidableEq

/-- The mutable fields of `struct Lex` (the token list and the cursor).
The `file` field is carried along unchanged. -/
structure Lex where
  file : String
  tokens : List Token
  index : Nat
  line : Nat
  column : Nat
deriving DecidableEq

/-- `Lex::new`. -/
def Lex.new (file : String) : Lex :=
  { file := file, tokens := [], index := 0, line := 1, column := 1 }

/-- One fatal diagnostic (`eprintln!` followed by `exit(-1)`), carrying the
values interpolated into the message. -/
inductive LexError where
  /-- `'/*' Missing ending` -/
  | blockMissingEnd
  /-- `'//' Missing ending` (the inverted length check in the line-comment
  loop; see `Lex::parse_note`). -/
  | lineMissingEnd
  /-- An out-of-bounds byte access would abort the process (only reachable
  outside the dispatch-loop invariant). -/
  | indexPanic
  /-- `Missing '"' at the end` at file:line:column. -/
  | stringMissingEnd (file : String) (line column : Nat)
  /-- Missing closing quote of a char literal at file:line:column. -/
  | charMissingEnd (file : String) (line column : Nat)
  /-- `There can only be one character between ''` at file:line:column. -/
  | charTooMany (file : String) (line column : Nat)
  /-- `[b] is not an ascii character` at file:line:column. -/
  | charNotAscii (b : Nat) (file : String) (line column : Nat)
  /-- `'c' cannot be an identifier` at file:line:column. -/
  | identBadChar (b : Nat) (file : String) (line column : Nat)
  /-- `Identifiers cannot start with a number` at file:line:column. -/
  | numStart (file : String) (line column : Nat)
  /-- `The number of binary values exceeds 1` at file:line:column. -/
  | binOverflow (file : String) (line column : Nat)
  /-- `The number of octal values exceeds 7` at file:line:column. -/
  | octOverflow (file : String) (line column : Nat)
  /-- `The number of decimal values exceeds 9` at file:line:column. -/
  | decOverflow (file : String) (line column : Nat)
deriving DecidableEq

/-- Result of offering the cursor to one sub-scanner: it declines, consumes
and returns the updated state, or hits a fatal diagnostic.  `spin` marks
fuel exhaustion of the model and never occurs for the supplied fuel. -/
inductive ScanRes where
  | declined
  | ok (l : Lex)
  | err (e : LexError)
  | spin
deriving DecidableEq

/-- `char::is_ascii_punctuation` on a byte value. -/
def isPunct (b : Nat) : Bool :=
  (33 ≤ b && b ≤ 47) || (58 ≤ b && b ≤ 64) || (91 ≤ b && b ≤ 96) || (123 ≤ b && b ≤ 126)

/-- `char::is_ascii_digit` on a byte value. -/
def isDigit (b : Nat) : Bool :=
  48 ≤ b && b ≤ 57

/-- The terminator byte set used by `parse_identifier` and `parse_number`:
`' ' | ';' | ',' | '\t' | '\n' | '\x0C' | '\r'` plus the four ASCII
punctuation ranges. -/
def isTermByte (b : Nat) : Bool :=
  b == 32 || b == 59 || b == 44 || b == 9 || b == 10 || b == 12 || b == 13 || isPunct b

/-- The identifier start set `'a'..='z' | 'A'..='Z' | '_'`. -/
def isIdentStart (b : Nat) : Bool :=
  (97 ≤ b && b ≤ 122) || (65 ≤ b && b ≤ 90) || b == 95

/-- The identifier continuation set `'a'..='z' | 'A'..='Z' | '_' | '0'..='9'`. -/
def isIdentCont (b : Nat) : Bool :=
  isIdentStart b || isDigit b

/-- Loop of the block form of `Lex::parse_note`.  `start` is the opening
index, `line0`/`column0` the saved opening location; `line`/`column` are the
running `self.line`/`self.column`, which the loop mutates. -/
def parse_note_block_loop (bytes : List Nat) (l : Lex) (start line0 column0 : Nat) :
    Nat → Nat → Nat → Nat → ScanRes
  | 0, _, _, _ => .spin
  | fuel + 1, i, line, column =>
    if bytes.length - i < 2 then
      .err .blockMissingEnd
    else if bytes.getD i 0 == 10 then
      parse_note_block_loop bytes l start line0 column0 fuel (i + 1) (line + 1) 1
    else if bytes.getD i 0 == 42 && bytes.getD (i + 1) 0 == 47 then
      .ok { l with
            index := i + 2,
            line := line,
            column := column + 2,
            tokens := l.tokens ++
              [{ loc := { file := l.file, line := line0, column := column0 },
                 token_type := .Note,
                 source := slice bytes start (i + 2) }] }
    else
      parse_note_block_loop bytes l start line0 column0 fuel (i + 1) line (column + 1)

/-- `Lex::parse_note`.  The line-comment branch is modelled by the first
statement of its loop body: the check `bytes.len() >= self.index` holds
whenever `self.index ≤ bytes.len()`, so the branch always exits with
`'//' Missing ending`; were the check false, the following unguarded
`bytes[self.index]` access would abort the process instead. -/
def parse_note (bytes : List Nat) (l : Lex) : ScanRes :=
  if bytes.length - l.index < 2 then
    .declined
  else if bytes.getD l.index 0 == 47 && bytes.getD (l.index + 1) 0 == 42 then
    parse_note_block_loop bytes l l.index l.line l.column
      (bytes.length + 1) (l.index + 2) l.line l.column
  else if bytes.getD l.index 0 == 47 && bytes.getD (l.index + 1) 0 == 47 then
    if l.index + 2 ≤ bytes.length then .err .lineMissingEnd else .err .indexPanic
  else
    .declined

/-- `Lex::parse_new_line`. -/
def parse_new_line (bytes : List Nat) (l : Lex) : ScanRes :=
  if bytes.getD l.index 0 == 10 then
    .ok { l with
          index := l.index + 1,
          line := l.line + 1,
          column := 1,
          tokens := l.tokens ++
            [{ loc := { file := l.file, line := l.line, column := l.column },
               token_type := .NewLine,
               source := [10] }] }
  else
    .declined

/-- `Lex::parse_space`. -/
def parse_space (bytes : List Nat) (l : Lex) : ScanRes :=
  if bytes.getD l.index 0 == 32 then
    .ok { l with
          index := l.index + 1,
          column := l.column + 1,
          tokens := l.tokens ++
            [{ loc := { file := l.file, line := l.line, column := l.column },
               token_type := .Space,
               source := [32] }] }
  else
    .declined

/-- Loop of `Lex::parse_string`.  `line`/`column` are the local counters
tracking position inside the literal; `skip` is the escape-pending flag. -/
def parse_string_loop (bytes : List Nat) (l : Lex) (start : Nat) :
    Nat → Nat → Bool → Nat → Nat → ScanRes
  | 0, _, _, _, _ => .spin
  | fuel + 1, i, skip, line, column =>
    if bytes.length ≤ i then
      .err (.stringMissingEnd l.file l.line l.column)
    else if bytes.getD i 0 == 34 then
      if !skip then
        .ok { l with
              index := i + 1,
              line := line,
              column := column + 1,
              tokens := l.tokens ++
                [{ loc := { file := l.file, line := l.line, column := l.column },
                   token_type := .Str,
                   source := slice bytes start (i + 1) }] }
      else
        parse_string_loop bytes l start fuel (i + 1) false line (column + 1)
    else if bytes.getD i 0 == 92 then
      parse_string_loop bytes l start fuel (i + 1) true line (column + 1)
    else if bytes.getD i 0 == 10 then
      -- the arm sets `line += 1; column = 0`; the loop foot adds 1 to column
      parse_string_loop bytes l start fuel (i + 1) false (line + 1) 1
    else
      parse_string_loop bytes l start fuel (i + 1) false line (column + 1)

/-- `Lex::parse_string`. -/
def parse_string (bytes : List Nat) (l : Lex) : ScanRes :=
  if bytes.getD l.index 0 == 34 then
    parse_string_loop bytes l l.index (bytes.length + 1) (l.index + 1) false l.line l.column
  else
    .declined

/-- Loop of `Lex::parse_char`.  `column` is the local counter, `max` the
byte budget (an absolute index bound in the source), `skip` the
escape-pending flag. -/
def parse_char_loop (bytes : List Nat) (l : Lex) (start : Nat) :
    Nat → Nat → Bool → Nat → Nat → ScanRes
  | 0, _, _, _, _ => .spin
  | fuel + 1, i, skip, column, max =>
    if bytes.length ≤ i then
      .err (.charMissingEnd l.file l.line l.column)
    else if max < i then
      .err (.charTooMany l.file l.line l.column)
    else if bytes.getD i 0 == 39 then
      if !skip then
        .ok { l with
              index := i + 1,
              column := column + 1,
              tokens := l.tokens ++
                [{ loc := { file := l.file, line := l.line, column := l.column },
                   token_type := .Char,
                   source := slice bytes start (i + 1) }] }
      else
        parse_char_loop bytes l start fuel (i + 1) false (column + 1) max
    else if bytes.getD i 0 == 92 then
      parse_char_loop bytes l start fuel (i + 1) true (column + 1) 3
    else if 127 < bytes.getD i 0 then
      .err (.charNotAscii (bytes.getD i 0) l.file l.line column)
    else
      parse_char_loop bytes l start fuel (i + 1) false (column + 1) max

/-- `Lex::parse_char`. -/
def parse_char (bytes : List Nat) (l : Lex) : ScanRes :=
  if bytes.getD l.index 0 == 39 then
    parse_char_loop bytes l l.index (bytes.length + 1) (l.index + 1) false l.column 2
  else
    .declined

/-- Loop of `Lex::parse_identifier`; `index`/`column` are the local
counters, committed to the cursor when the token is emitted. -/
def parse_identifier_loop (bytes : List Nat) (l : Lex) (start : Nat) :
    Nat → Nat → Nat → ScanRes
  | 0, _, _ => .spin
  | fuel + 1, index, column =>
    if bytes.length ≤ index then
      .ok { l with
            index := index,
            column := column,
            tokens := l.tokens ++
              [{ loc := { file := l.file, line := l.line, column := l.column },
                 token_type := .Identifier,
                 source := slice bytes start index }] }
    else if isTermByte (bytes.getD index 0) then
      if bytes.getD index 0 != 95 then
        .ok { l with
              index := index,
              column := column,
              tokens := l.tokens ++
                [{ loc := { file := l.file, line := l.line, column := l.column },
                   token_type := .Identifier,
                   source := slice bytes start index }] }
      else
        parse_identifier_loop bytes l start fuel (index + 1) (column + 1)
    else if isIdentCont (bytes.getD index 0) then
      parse_identifier_loop bytes l start fuel (index + 1) (column + 1)
    else
      .err (.identBadChar (bytes.getD index 0) l.file l.line l.column)

/-- `Lex::parse_identifier`. -/
def parse_identifier (bytes : List Nat) (l : Lex) : ScanRes :=
  if isIdentStart (bytes.getD l.index 0) then
    parse_identifier_loop bytes l l.index (bytes.length + 1) l.index l.column
  else
    .declined

/-- `Lex::parse_operator`. -/
def parse_operator (bytes : List Nat) (l : Lex) : ScanRes :=
  if isPunct (bytes.getD l.index 0) then
    .ok { l with
          index := l.index + 1,
          column := l.column + 1,
          tokens := l.tokens ++
            [{ loc := { file := l.file, line := l.line, column := l.column },
               token_type := .Operator .OpEq,
               source := slice bytes l.index (l.index + 1) }] }
  else
    .declined

/-- The five base flags plus the deferred error flag of `Lex::parse_number`. -/
structure NumFlags where
  f_flag : Bool
  bin_num : Bool
  oct_num : Bool
  hex_num : Bool
  dec_num : Bool
  err_token : Bool
deriving DecidableEq

/-- All flags false, as initialized at the top of `Lex::parse_number`. -/
def NumFlags.init : NumFlags :=
  { f_flag := false, bin_num := false, oct_num := false, hex_num := false,
    dec_num := false, err_token := false }

/-- Outcome of one match arm of `Lex::parse_number` on a non-terminator
byte: continue scanning with updated flags, stop the run (terminator byte),
or raise an immediate fatal diagnostic. -/
inductive NumStep where
  | cont (fl : NumFlags)
  | stop
  | fail (e : LexError)
deriving DecidableEq

/-- The patterns of the match in `Lex::parse_number`, one constructor per
arm, in source order. -/
inductive NumByteClass where
  | zeroDigit
  | oneDigit
  | digit27
  | digit89
  | hexLetter
  | xLetter
  | bLetter
  | term
  | fLetter
  | other
deriving DecidableEq

/-- Which arm of the match in `Lex::parse_number` the byte `b` selects
(the patterns are pairwise disjoint, so source order is immaterial). -/
def numByteClass (b : Nat) : NumByteClass :=
  if b == 48 then .zeroDigit
  else if b == 49 then .oneDigit
  else if 50 ≤ b ∧ b ≤ 55 then .digit27
  else if 56 ≤ b ∧ b ≤ 57 then .digit89
  else if b = 97 ∨ b = 65 ∨ (99 ≤ b ∧ b ≤ 101) ∨ (67 ≤ b ∧ b ≤ 69) then .hexLetter
  else if b = 120 ∨ b = 88 then .xLetter
  else if b = 98 ∨ b = 66 then .bLetter
  else if isTermByte b then .term
  else if b = 102 ∨ b = 70 then .fLetter
  else .other

/-- The match of `Lex::parse_number` on the byte at `index`.  Each arm of
the source is one branch; arms guard their mutations with `if !err_token`,
modelled here by an initial `err_token` test per arm that continues with
unchanged flags.  Within an arm, checks of flags unaffected by the arm's
earlier mutations are evaluated before those mutations where this does not
change the outcome (the source sets `dec_num` before testing
`bin_num`/`oct_num`, which the assignment leaves untouched).  The
terminator arm is reported as `stop`; its body is character-for-character
the end-of-buffer epilogue, which the loop below executes for both. -/
def parse_number_step (bytes : List Nat) (l : Lex) (start index column : Nat)
    (fl : NumFlags) : NumStep :=
  match numByteClass (bytes.getD index 0) with
  | .zeroDigit =>
    .cont (if fl.err_token then fl
           else if fl.f_flag then { fl with err_token := true }
           else if start == index then { fl with oct_num := true }
           else fl)
  | .oneDigit =>
    .cont (if fl.err_token then fl
           else if fl.f_flag then { fl with err_token := true }
           else if !fl.bin_num && !fl.oct_num && !fl.hex_num then { fl with dec_num := true }
           else fl)
  | .digit27 =>
    if fl.err_token then .cont fl
    else if fl.f_flag then .cont { fl with err_token := true }
    else if fl.bin_num then .fail (.binOverflow l.file l.line column)
    else .cont (if !fl.bin_num && !fl.oct_num && !fl.hex_num then { fl with dec_num := true }
                else fl)
  | .digit89 =>
    if fl.err_token then .cont fl
    else if fl.f_flag then .cont { fl with err_token := true }
    else if fl.bin_num then .fail (.binOverflow l.file l.line column)
    else if fl.oct_num then .fail (.octOverflow l.file l.line column)
    else .cont (if !fl.bin_num && !fl.oct_num && !fl.hex_num then { fl with dec_num := true }
                else fl)
  | .hexLetter =>
    if fl.err_token then .cont fl
    else if fl.f_flag then .cont { fl with err_token := true }
    else if fl.bin_num then .fail (.binOverflow l.file l.line column)
    else if fl.oct_num then .fail (.octOverflow l.file l.line column)
    else if fl.dec_num then .fail (.decOverflow l.file l.line column)
    else if !fl.hex_num then .cont { fl with err_token := true }
    else .cont fl
  | .xLetter =>
    .cont (if fl.err_token then fl
           else if !(fl.oct_num && index - start == 1) then { fl with err_token := true }
           else { fl with oct_num := false, hex_num := true })
  | .bLetter =>
    if fl.err_token then .cont fl
    else if fl.oct_num then
      if index - start == 1 then .cont { fl with oct_num := false, bin_num := true }
      else .fail (.octOverflow l.file l.line column)
    else if fl.bin_num then .fail (.binOverflow l.file l.line column)
    else if fl.dec_num then .fail (.decOverflow l.file l.line column)
    else if !fl.hex_num then .cont { fl with err_token := true }
    else .cont fl
  | .term =>
    -- the terminator arm: emit or raise the deferred error, exactly as at
    -- end of buffer
    .stop
  | .fLetter =>
    if fl.err_token then .cont fl
    else if fl.hex_num then .cont fl
    else if index != start && isDigit (bytes.getD (index - 1) 0) then
      if fl.f_flag then .cont { fl with err_token := true }
      else .cont { fl with f_flag := true }
    else if fl.bin_num then .fail (.binOverflow l.file l.line column)
    else if fl.oct_num then .fail (.octOverflow l.file l.line column)
    else if fl.dec_num then .fail (.decOverflow l.file l.line column)
    else .cont fl
  | .other =>
    -- the catch-all arm
    .cont { fl with err_token := true }

/-- Loop of `Lex::parse_number`: step through the bytes with
`parse_number_step`; at a terminator byte or at end of buffer, raise the
deferred error if `err_token` is set, otherwise emit the Number token and
commit the local cursor fields. -/
def parse_number_loop (bytes : List Nat) (l : Lex) (start : Nat) :
    Nat → Nat → Nat → NumFlags → ScanRes
  | 0, _, _, _ => .spin
  | fuel + 1, index, column, fl =>
    if bytes.length ≤ index then
      if fl.err_token then
        .err (.numStart l.file l.line l.column)
      else
        .ok { l with
              index := index,
              column := column,
              tokens := l.tokens ++
                [{ loc := { file := l.file, line := l.line, column := l.column },
                   token_type := .Number,
                   source := slice bytes start index }] }
    else
      match parse_number_step bytes l start index column fl with
      | .fail e => .err e
      | .stop =>
        if fl.err_token then
          .err (.numStart l.file l.line l.column)
        else
          .ok { l with
                index := index,
                column := column,
                tokens := l.tokens ++
                  [{ loc := { file := l.file, line := l.line, column := l.column },
                     token_type := .Number,
                     source := slice bytes start index }] }
      | .cont fl' => parse_number_loop bytes l start fuel (index + 1) (column + 1) fl'

/-- `Lex::parse_number`. -/
def parse_number (bytes : List Nat) (l : Lex) : ScanRes :=
  if isDigit (bytes.getD l.index 0) then
    parse_number_loop bytes l l.index (bytes.length + 1) l.index l.column NumFlags.init
  else
    .declined

/-- The if-chain of `Lex::parse`: the first sub-scanner that does not
decline wins. -/
def scanOr (a b : ScanRes) : ScanRes :=
  match a with
  | .declined => b
  | r => r

/-- One step of the dispatch loop of `Lex::parse`: offer the cursor to the
sub-scanners in the fixed priority order. -/
def dispatch (bytes : List Nat) (l : Lex) : ScanRes :=
  scanOr (parse_note bytes l)
    (scanOr (parse_new_line bytes l)
      (scanOr (parse_space bytes l)
        (scanOr (parse_string bytes l)
          (scanOr (parse_char bytes l)
            (scanOr (parse_identifier bytes l)
              (scanOr (parse_operator bytes l)
                (parse_number bytes l)))))))

instance : DecidableEq (Except LexError Lex) := fun a b =>
  match a, b with
  | .ok x, .ok y => if h : x = y then .isTrue (by rw [h]) else .isFalse (by simp [h])
  | .error x, .error y => if h : x = y then .isTrue (by rw [h]) else .isFalse (by simp [h])
  | .ok _, .error _ => .isFalse (by simp)
  | .error _, .ok _ => .isFalse (by simp)

/-- The `while self.index < bytes.len()` loop of `Lex::parse`.  When no
sub-scanner consumes, one byte is silently skipped.  `none` marks fuel
exhaustion (of this loop or of a sub-scanner) and is proved unreachable
for the fuel `Lex.parse` supplies. -/
def parseLoop (bytes : List Nat) : Nat → Lex → Option (Except LexError Lex)
  | 0, _ => none
  | fuel + 1, l =>
    if l.index < bytes.length then
      match dispatch bytes l with
      | .ok l' => parseLoop bytes fuel l'
      | .err e => some (.error e)
      | .spin => none
      | .declined =>
        parseLoop bytes fuel { l with index := l.index + 1, column := l.column + 1 }
    else
      some (.ok l)

/-- `Lex::parse` on a file whose contents are `bytes` (the file read is
modelled by passing the byte buffer directly). -/
def Lex.parse (file : String) (bytes : List Nat) : Option (Except LexError Lex) :=
  parseLoop bytes (bytes.length + 1) (Lex.new file)

/-- Decoding of a byte slice for display, as `String::from_utf8_lossy`
produces it; the two agree on ASCII data, which is all the renderer is
ever applied to in this development. -/
def decodeBytes (bs : List Nat) : String :=
  ⟨bs.map Char.ofNat⟩

/-- `Location::show`. -/
def Location.render (loc : Location) : String :=
  loc.file ++ ":" ++ toString loc.line ++ ":" ++ toString loc.column

/-- The `{:?}` (derived Debug) rendering of a `TokenType`. -/
def TokenType.tag : TokenType → String
  | .Note => "Note"
  | .NewLine => "NewLine"
  | .Space => "Space"
  | .KeyWord .KVoid => "KeyWord(KVoid)"
  | .KeyWord .KChar => "KeyWord(KChar)"
  | .KeyWord .KInt => "KeyWord(KInt)"
  | .KeyWord .KFloat => "KeyWord(KFloat)"
  | .KeyWord .Kdouble => "KeyWord(Kdouble)"
  | .Number => "Number"
  | .FlotNumber => "FlotNumber"
  | .Str => "Str"
  | .Char => "Char"
  | .Identifier => "Identifier"
  | .Operator .OpEq => "Operator(OpEq)"
  | .Operator .OpAssign => "Operator(OpAssign)"

/-- `Token::show`. -/
def Token.render (t : Token) : String :=
  "'" ++ decodeBytes t.source ++ "' [" ++ t.token_type.tag ++ "] Loc:(" ++ t.loc.render ++ ")"

/-- `String::pop` (discarding the returned character). -/
def strPop (s : String) : String :=
  ⟨s.data.dropLast⟩

/-- Whether a token is one of the trivia kinds the renderer skips. -/
def isTrivia (t : Token) : Bool :=
  match t.token_type with
  | .Note | .NewLine | .Space => true
  | _ => false

/-- The body of the token loop in `Lex::show`: trivia kinds are skipped,
any other token appends its rendered line plus a newline. -/
def renderStep (acc : String) (t : Token) : String :=
  match t.token_type with
  | .Note | .NewLine | .Space => acc
  | _ => acc ++ (t.render ++ "\n")

/-- `Lex::show`: fold the rendered non-trivia lines with a trailing
newline each, then pop the final character. -/
def Lex.render (ts : List Token) : String :=
  strPop (ts.foldl renderStep "")

/-- Lines joined with a single newline between them and no trailing
newline (the shape the specification ascribes to the dump format). -/
def joinLines : List String → String
  | [] => ""
  | [s] => s
  | s :: ss => s ++ "\n" ++ joinLines ss

/-- The start sets of the sub-scanners: a byte from which some sub-scanner
can consume (comment and operator starts both begin at punctuation). -/
def inStartSet (b : Nat) : Bool :=
  b == 10 || b == 32 || b == 34 || b == 39 || isIdentStart b || isPunct b || isDigit b

/-- The emitted lexemes tile the byte buffer: each is the slice at the
running offset, and the offsets end exactly at the buffer length. -/
def lexemesTile (bytes : List Nat) : Nat → List Token → Bool
  | i, [] => i == bytes.length
  | i, t :: ts =>
    (t.source == slice bytes i (i + t.source.length)) &&
      lexemesTile bytes (i + t.source.length) ts

/-- The tokens consume consecutive non-overlapping slices leading from
offset `i` to offset `j` (proof-side counterpart of `lexemesTile`). -/
def covers (bytes : List Nat) : Nat → Nat → List Token → Prop
  | i, j, [] => i = j
  | i, j, t :: ts =>
    ∃ k, i < k ∧ k ≤ bytes.length ∧ t.source = slice bytes i k ∧ covers bytes k j ts

/-! ## Helper lemmas about slices and byte classes -/

theorem slice_self (bytes : List Nat) : slice bytes 0 bytes.length = bytes := by
  simp [slice]

theorem slice_length (bytes : List Nat) {a b : Nat} (hb : b ≤ bytes.length) :
    (slice bytes a b).length = b - a := by
  simp only [slice, List.length_take, List.length_drop]
  omega

theorem slice_nil (bytes : List Nat) (a : Nat) : slice bytes a a = [] := by
  simp [slice]

theorem slice_append (bytes : List Nat) {a b c : Nat} (hab : a ≤ b) (hbc : b ≤ c) :
    slice bytes a b ++ slice bytes b c = slice bytes a c := by
  simp only [slice]
  have hd : bytes.drop b = (bytes.drop a).drop (b - a) := by
    rw [List.drop_drop]
    congr 1
    omega
  rw [hd, ← List.take_add]
  congr 1
  omega

theorem slice_single (bytes : List Nat) {i : Nat} (h : i < bytes.length) :
    slice bytes i (i + 1) = [bytes.getD i 0] := by
  simp only [slice, Nat.add_sub_cancel_left]
  rw [List.drop_eq_getElem_cons h, List.getD_eq_getElem bytes 0 h]
  rfl

theorem getD_lt_of_ne_default {bytes : List Nat} {i b : Nat}
    (hb : bytes.getD i 0 = b) (h0 : b ≠ 0) : i < bytes.length := by
  by_contra hge
  rw [List.getD_eq_default bytes 0 (by omega)] at hb
  exact h0 hb.symm

theorem isTermByte_of_isDigit {b : Nat} (h : isDigit b = true) : isTermByte b = false := by
  simp only [isDigit, Bool.and_eq_true, decide_eq_true_eq] at h
  simp only [isTermByte, isPunct, Bool.or_eq_false_iff, beq_eq_false_iff_ne, ne_eq,
    Bool.and_eq_false_iff, decide_eq_false_iff_not]
  omega

theorem eq_95_of_isIdentStart_isTermByte {b : Nat} (h1 : isIdentStart b = true)
    (h2 : isTermByte b = true) : b = 95 := by
  simp only [isIdentStart, Bool.or_eq_true, Bool.and_eq_true, decide_eq_true_eq,
    beq_iff_eq] at h1
  simp only [isTermByte, isPunct, Bool.or_eq_true, Bool.and_eq_true, decide_eq_true_eq,
    beq_iff_eq] at h2
  omega

/-! ## Lemmas about `scanOr` -/

theorem scanOr_ok {a b : ScanRes} {l' : Lex} (h : scanOr a b = .ok l') :
    a = .ok l' ∨ (a = .declined ∧ b = .ok l') := by
  cases a <;> simp_all [scanOr]

theorem scanOr_declined {a b : ScanRes} (h : scanOr a b = .declined) :
    a = .declined ∧ b = .declined := by
  cases a <;> simp_all [scanOr]

theorem scanOr_ne_spin {a b : ScanRes} (ha : a ≠ .spin) (hb : b ≠ .spin) :
    scanOr a b ≠ .spin := by
  cases a <;> simp_all [scanOr]

/-! ## Characterization of the single-byte sub-scanners -/

theorem parse_space_ok {bytes : List Nat} {l l' : Lex} (h : parse_space bytes l = .ok l') :
    l' = { l with
           index := l.index + 1,
           column := l.column + 1,
           tokens := l.tokens ++
             [{ loc := { file := l.file, line := l.line, column := l.column },
                token_type := .Space, source := [32] }] } ∧
    l.index < bytes.length ∧ bytes.getD l.index 0 = 32 := by
  unfold parse_space at h
  split at h
  case isTrue hb =>
    rw [beq_iff_eq] at hb
    cases h
    exact ⟨rfl, getD_lt_of_ne_default hb (by omega), hb⟩
  case isFalse hb => exact absurd h (by simp)

theorem parse_new_line_ok {bytes : List Nat} {l l' : Lex}
    (h : parse_new_line bytes l = .ok l') :
    l' = { l with
           index := l.index + 1,
           line := l.line + 1,
           column := 1,
           tokens := l.tokens ++
             [{ loc := { file := l.file, line := l.line, column := l.column },
                token_type := .NewLine, source := [10] }] } ∧
    l.index < bytes.length ∧ bytes.getD l.index 0 = 10 := by
  unfold parse_new_line at h
  split at h
  case isTrue hb =>
    rw [beq_iff_eq] at hb
    cases h
    exact ⟨rfl, getD_lt_of_ne_default hb (by omega), hb⟩
  case isFalse hb => exact absurd h (by simp)

theorem parse_operator_ok {bytes : List Nat} {l l' : Lex}
    (h : parse_operator bytes l = .ok l') :
    l' = { l with
           index := l.index + 1,
           column := l.column + 1,
           tokens := l.tokens ++
             [{ loc := { file := l.file, line := l.line, column := l.column },
                token_type := .Operator .OpEq,
                source := slice bytes l.index (l.index + 1) }] } ∧
    l.index < bytes.length ∧ isPunct (bytes.getD l.index 0) = true := by
  unfold parse_operator at h
  split at h
  case isTrue hb =>
    cases h
    refine ⟨rfl, getD_lt_of_ne_default rfl ?_, hb⟩
    intro h0
    rw [h0] at hb
    simp [isPunct] at hb
  case isFalse hb => exact absurd h (by simp)

/-! ## Characterization of the string-literal scanner -/

theorem parse_string_loop_ok {bytes : List Nat} {l : Lex} {start : Nat} :
    ∀ fuel i skip line column l',
      parse_string_loop bytes l start fuel i skip line column = .ok l' →
      ∃ m, i ≤ m ∧ m < bytes.length ∧ l'.index = m + 1 ∧
        l'.tokens = l.tokens ++
          [{ loc := { file := l.file, line := l.line, column := l.column },
             token_type := .Str, source := slice bytes start (m + 1) }] := by
  intro fuel
  induction fuel with
  | zero => intro i skip line column l' h; exact absurd h (by simp [parse_string_loop])
  | succ n ih =>
    intro i skip line column l' h
    simp only [parse_string_loop] at h
    split_ifs at h with h1 h2 h3 h4 h5
    · cases h
      exact ⟨i, Nat.le_refl i, by omega, rfl, rfl⟩
    · obtain ⟨m, hm1, hm2, hm3, hm4⟩ := ih _ _ _ _ _ h
      exact ⟨m, by omega, hm2, hm3, hm4⟩
    · obtain ⟨m, hm1, hm2, hm3, hm4⟩ := ih _ _ _ _ _ h
      exact ⟨m, by omega, hm2, hm3, hm4⟩
    · obtain ⟨m, hm1, hm2, hm3, hm4⟩ := ih _ _ _ _ _ h
      exact ⟨m, by omega, hm2, hm3, hm4⟩
    · obtain ⟨m, hm1, hm2, hm3, hm4⟩ := ih _ _ _ _ _ h
      exact ⟨m, by omega, hm2, hm3, hm4⟩

theorem parse_string_ok {bytes : List Nat} {l l' : Lex}
    (h : parse_string bytes l = .ok l') :
    ∃ t, l'.tokens = l.tokens ++ [t] ∧ t.source = slice bytes l.index l'.index ∧
      l.index < l'.index ∧ l'.index ≤ bytes.length := by
  unfold parse_string at h
  split at h
  case isFalse => exact absurd h (by simp)
  case isTrue hb =>
    obtain ⟨m, h1, h2, h3, h4⟩ := parse_string_loop_ok _ _ _ _ _ _ h
    refine ⟨_, h4, ?_, by omega, by omega⟩
    rw [h3]

/-! ## Characterization of the char-literal scanner -/

theorem parse_char_loop_ok {bytes : List Nat} {l : Lex} {start : Nat} :
    ∀ fuel i skip column max l',
      parse_char_loop bytes l start fuel i skip column max = .ok l' →
      ∃ m, i ≤ m ∧ m < bytes.length ∧ l'.index = m + 1 ∧ l'.line = l.line ∧
        l'.column + i = column + m + 1 ∧
        l'.tokens = l.tokens ++
          [{ loc := { file := l.file, line := l.line, column := l.column },
             token_type := .Char, source := slice bytes start (m + 1) }] := by
  intro fuel
  induction fuel with
  | zero => intro i skip column max l' h; exact absurd h (by simp [parse_char_loop])
  | succ n ih =>
    intro i skip column max l' h
    simp only [parse_char_loop] at h
    split_ifs at h with h1 h2 h3 h4 h5 h6
    · cases h
      refine ⟨i, Nat.le_refl i, by omega, rfl, rfl, ?_, rfl⟩
      show column + 1 + i = column + i + 1
      omega
    · obtain ⟨m, hm1, hm2, hm3, hm4, hm5, hm6⟩ := ih _ _ _ _ _ h
      exact ⟨m, by omega, hm2, hm3, hm4, by omega, hm6⟩
    · obtain ⟨m, hm1, hm2, hm3, hm4, hm5, hm6⟩ := ih _ _ _ _ _ h
      exact ⟨m, by omega, hm2, hm3, hm4, by omega, hm6⟩
    · obtain ⟨m, hm1, hm2, hm3, hm4, hm5, hm6⟩ := ih _ _ _ _ _ h
      exact ⟨m, by omega, hm2, hm3, hm4, by omega, hm6⟩

theorem parse_char_ok {bytes : List Nat} {l l' : Lex}
    (h : parse_char bytes l = .ok l') :
    ∃ t, l'.tokens = l.tokens ++ [t] ∧ t.source = slice bytes l.index l'.index ∧
      l.index < l'.index ∧ l'.index ≤ bytes.length := by
  unfold parse_char at h
  split at h
  case isFalse => exact absurd h (by simp)
  case isTrue hb =>
    obtain ⟨m, h1, h2, h3, h4, h5, h6⟩ := parse_char_loop_ok _ _ _ _ _ _ h
    refine ⟨_, h6, ?_, by omega, by omega⟩
    rw [h3]

/-! ## Characterization of the identifier scanner -/

theorem parse_identifier_loop_ok {bytes : List Nat} {l : Lex} {start : Nat} :
    ∀ fuel index column l', index ≤ bytes.length →
      parse_identifier_loop bytes l start fuel index column = .ok l' →
      ∃ m, index ≤ m ∧ m ≤ bytes.length ∧ l'.index = m ∧ l'.line = l.line ∧
        l'.column + index = column + m ∧
        l'.tokens = l.tokens ++
          [{ loc := { file := l.file, line := l.line, column := l.column },
             token_type := .Identifier, source := slice bytes start m }] ∧
        (bytes.length ≤ m ∨ (isTermByte (bytes.getD m 0) = true ∧ bytes.getD m 0 ≠ 95)) := by
  intro fuel
  induction fuel with
  | zero => intro index column l' hle h; exact absurd h (by simp [parse_identifier_loop])
  | succ n ih =>
    intro index column l' hle h
    simp only [parse_identifier_loop] at h
    split_ifs at h with h1 h2 h3 h4
    · cases h
      exact ⟨index, Nat.le_refl index, hle, rfl, rfl, rfl, rfl, Or.inl h1⟩
    · cases h
      refine ⟨index, Nat.le_refl index, hle, rfl, rfl, rfl, rfl, Or.inr ⟨h2, ?_⟩⟩
      exact bne_iff_ne.mp h3
    · obtain ⟨m, hm1, hm2, hm3, hm4, hm5, hm6, hm7⟩ := ih _ _ _ (by omega) h
      exact ⟨m, by omega, hm2, hm3, hm4, by omega, hm6, hm7⟩
    · obtain ⟨m, hm1, hm2, hm3, hm4, hm5, hm6, hm7⟩ := ih _ _ _ (by omega) h
      exact ⟨m, by omega, hm2, hm3, hm4, by omega, hm6, hm7⟩

theorem parse_identifier_ok {bytes : List Nat} {l l' : Lex}
    (h : parse_identifier bytes l = .ok l') :
    ∃ t, l'.tokens = l.tokens ++ [t] ∧ t.source = slice bytes l.index l'.index ∧
      l.index < l'.index ∧ l'.index ≤ bytes.length ∧ l'.line = l.line ∧
      l'.column + l.index = l.column + l'.index := by
  unfold parse_identifier at h
  split at h
  case isFalse => exact absurd h (by simp)
  case isTrue hb =>
    have hlt : l.index < bytes.length := by
      refine getD_lt_of_ne_default rfl ?_
      intro h0
      rw [h0] at hb
      simp [isIdentStart] at hb
    obtain ⟨m, h1, h2, h3, h4, h5, h6, h7⟩ :=
      parse_identifier_loop_ok _ _ _ _ (by omega) h
    have hne : l.index ≠ m := by
      intro he
      rcases h7 with h7 | ⟨h7a, h7b⟩
      · omega
      · rw [← he] at h7a h7b
        exact h7b (eq_95_of_isIdentStart_isTermByte hb h7a)
    exact ⟨_, h6, by rw [h3], by omega, by omega, h4, by omega⟩

/-! ## Characterization of the number scanner -/

theorem numByteClass_term {b : Nat} (h : numByteClass b = .term) :
    isTermByte b = true := by
  unfold numByteClass at h
  split_ifs at h
  assumption

theorem parse_number_step_stop {bytes : List Nat} {l : Lex}
    {start index column : Nat} {fl : NumFlags}
    (h : parse_number_step bytes l start index column fl = .stop) :
    isTermByte (bytes.getD index 0) = true := by
  unfold parse_number_step at h
  cases hc : numByteClass (bytes.getD index 0) <;> simp only [hc] at h
  case term => exact numByteClass_term hc
  all_goals try split_ifs at h
  all_goals simp at h

theorem parse_number_loop_ok {bytes : List Nat} {l : Lex} {start : Nat} :
    ∀ fuel index column fl l', index ≤ bytes.length →
      parse_number_loop bytes l start fuel index column fl = .ok l' →
      ∃ m, index ≤ m ∧ m ≤ bytes.length ∧ l'.index = m ∧ l'.line = l.line ∧
        l'.column + index = column + m ∧
        l'.tokens = l.tokens ++
          [{ loc := { file := l.file, line := l.line, column := l.column },
             token_type := .Number, source := slice bytes start m }] ∧
        (bytes.length ≤ m ∨ isTermByte (bytes.getD m 0) = true) := by
  intro fuel
  induction fuel with
  | zero => intro index column fl l' hle h; exact absurd h (by simp [parse_number_loop])
  | succ n ih =>
    intro index column fl l' hle h
    simp only [parse_number_loop] at h
    by_cases h1 : bytes.length ≤ index
    · rw [if_pos h1] at h
      by_cases h2 : fl.err_token
      · simp [h2] at h
      · rw [if_neg h2] at h
        cases h
        exact ⟨index, Nat.le_refl index, hle, rfl, rfl, rfl, rfl, Or.inl h1⟩
    · rw [if_neg h1] at h
      cases hs : parse_number_step bytes l start index column fl with
      | cont fl' =>
        simp only [hs] at h
        obtain ⟨m, hm1, hm2, hm3, hm4, hm5, hm6, hm7⟩ := ih _ _ _ _ (by omega) h
        exact ⟨m, by omega, hm2, hm3, hm4, by omega, hm6, hm7⟩
      | stop =>
        simp only [hs] at h
        by_cases h2 : fl.err_token
        · simp [h2] at h
        · rw [if_neg h2] at h
          cases h
          exact ⟨index, Nat.le_refl index, by omega, rfl, rfl, rfl, rfl,
                 Or.inr (parse_number_step_stop hs)⟩
      | fail e =>
        simp only [hs] at h
        exact absurd h (by simp)

theorem parse_number_ok {bytes : List Nat} {l l' : Lex}
    (h : parse_number bytes l = .ok l') :
    ∃ t, l'.tokens = l.tokens ++ [t] ∧ t.source = slice bytes l.index l'.index ∧
      l.index < l'.index ∧ l'.index ≤ bytes.length ∧ l'.line = l.line ∧
      l'.column + l.index = l.column + l'.index := by
  unfold parse_number at h
  split at h
  case isFalse => exact absurd h (by simp)
  case isTrue hb =>
    have hlt : l.index < bytes.length := by
      refine getD_lt_of_ne_default rfl ?_
      intro h0
      rw [h0] at hb
      simp [isDigit] at hb
    obtain ⟨m, h1, h2, h3, h4, h5, h6, h7⟩ := parse_number_loop_ok _ _ _ _ _ (by omega) h
    have hne : l.index ≠ m := by
      intro he
      rcases h7 with h7 | h7
      · omega
      · rw [← he] at h7
        rw [isTermByte_of_isDigit hb] at h7
        exact Bool.false_ne_true h7
    exact ⟨_, h6, by rw [h3], by omega, by omega, h4, by omega⟩

/-! ## Characterization of the comment scanner -/

theorem parse_note_block_loop_ok {bytes : List Nat} {l : Lex} {start line0 column0 : Nat} :
    ∀ fuel i line column l',
      parse_note_block_loop bytes l start line0 column0 fuel i line column = .ok l' →
      ∃ m, i ≤ m ∧ m + 2 ≤ bytes.length ∧ l'.index = m + 2 ∧
        l'.tokens = l.tokens ++
          [{ loc := { file := l.file, line := line0, column := column0 },
             token_type := .Note, source := slice bytes start (m + 2) }] := by
  intro fuel
  induction fuel with
  | zero => intro i line column l' h; exact absurd h (by simp [parse_note_block_loop])
  | succ n ih =>
    intro i line column l' h
    simp only [parse_note_block_loop] at h
    split_ifs at h with h1 h2 h3
    · obtain ⟨m, hm1, hm2, hm3, hm4⟩ := ih _ _ _ _ h
      exact ⟨m, by omega, hm2, hm3, hm4⟩
    · cases h
      exact ⟨i, Nat.le_refl i, by omega, rfl, rfl⟩
    · obtain ⟨m, hm1, hm2, hm3, hm4⟩ := ih _ _ _ _ h
      exact ⟨m, by omega, hm2, hm3, hm4⟩

theorem parse_note_ok {bytes : List Nat} {l l' : Lex}
    (h : parse_note bytes l = .ok l') :
    ∃ t, l'.tokens = l.tokens ++ [t] ∧ t.source = slice bytes l.index l'.index ∧
      l.index < l'.index ∧ l'.index ≤ bytes.length := by
  unfold parse_note at h
  split_ifs at h with h1 h2 h3 h4
  · obtain ⟨m, hm1, hm2, hm3, hm4⟩ := parse_note_block_loop_ok _ _ _ _ _ h
    exact ⟨_, hm4, by rw [hm3], by omega, by omega⟩

/-! ## The sub-scanner loops never decline and, with enough fuel, never spin -/

theorem parse_string_loop_ne_declined {bytes : List Nat} {l : Lex} {start : Nat} :
    ∀ fuel i skip line column,
      parse_string_loop bytes l start fuel i skip line column ≠ .declined := by
  intro fuel
  induction fuel with
  | zero => intro i skip line column; simp [parse_string_loop]
  | succ n ih =>
    intro i skip line column
    simp only [parse_string_loop]
    split_ifs <;> first | exact ih _ _ _ _ | simp

theorem parse_char_loop_ne_declined {bytes : List Nat} {l : Lex} {start : Nat} :
    ∀ fuel i skip column max,
      parse_char_loop bytes l start fuel i skip column max ≠ .declined := by
  intro fuel
  induction fuel with
  | zero => intro i skip column max; simp [parse_char_loop]
  | succ n ih =>
    intro i skip column max
    simp only [parse_char_loop]
    split_ifs <;> first | exact ih _ _ _ _ | simp

theorem parse_identifier_loop_ne_declined {bytes : List Nat} {l : Lex} {start : Nat} :
    ∀ fuel index column,
      parse_identifier_loop bytes l start fuel index column ≠ .declined := by
  intro fuel
  induction fuel with
  | zero => intro index column; simp [parse_identifier_loop]
  | succ n ih =>
    intro index column
    simp only [parse_identifier_loop]
    split_ifs <;> first | exact ih _ _ | simp

theorem parse_number_loop_ne_declined {bytes : List Nat} {l : Lex} {start : Nat} :
    ∀ fuel index column fl,
      parse_number_loop bytes l start fuel index column fl ≠ .declined := by
  intro fuel
  induction fuel with
  | zero => intro index column fl; simp [parse_number_loop]
  | succ n ih =>
    intro index column fl
    simp only [parse_number_loop]
    by_cases h1 : bytes.length ≤ index
    · rw [if_pos h1]; split_ifs <;> simp
    · rw [if_neg h1]
      cases hs : parse_number_step bytes l start index column fl <;> simp only [hs]
      · exact ih _ _ _
      · split_ifs <;> simp
      · simp

theorem parse_string_loop_nospin {bytes : List Nat} {l : Lex} {start : Nat} :
    ∀ fuel i skip line column, bytes.length - i < fuel →
      parse_string_loop bytes l start fuel i skip line column ≠ .spin := by
  intro fuel
  induction fuel with
  | zero => intro i skip line column hf; omega
  | succ n ih =>
    intro i skip line column hf
    simp only [parse_string_loop]
    split_ifs with h1 h2 h3 h4 h5 <;>
      first | exact ih _ _ _ _ (by omega) | simp

theorem parse_char_loop_nospin {bytes : List Nat} {l : Lex} {start : Nat} :
    ∀ fuel i skip column max, bytes.length - i < fuel →
      parse_char_loop bytes l start fuel i skip column max ≠ .spin := by
  intro fuel
  induction fuel with
  | zero => intro i skip column max hf; omega
  | succ n ih =>
    intro i skip column max hf
    simp only [parse_char_loop]
    split_ifs with h1 h2 h3 h4 h5 h6 <;>
      first | exact ih _ _ _ _ (by omega) | simp

theorem parse_identifier_loop_nospin {bytes : List Nat} {l : Lex} {start : Nat} :
    ∀ fuel index column, bytes.length - index < fuel →
      parse_identifier_loop bytes l start fuel index column ≠ .spin := by
  intro fuel
  induction fuel with
  | zero => intro index column hf; omega
  | succ n ih =>
    intro index column hf
    simp only [parse_identifier_loop]
    split_ifs with h1 h2 h3 h4 <;>
      first | exact ih _ _ (by omega) | simp

theorem parse_number_loop_nospin {bytes : List Nat} {l : Lex} {start : Nat} :
    ∀ fuel index column fl, bytes.length - index < fuel →
      parse_number_loop bytes l start fuel index column fl ≠ .spin := by
  intro fuel
  induction fuel with
  | zero => intro index column fl hf; omega
  | succ n ih =>
    intro index column fl hf
    simp only [parse_number_loop]
    by_cases h1 : bytes.length ≤ index
    · rw [if_pos h1]; split_ifs <;> simp
    · rw [if_neg h1]
      cases hs : parse_number_step bytes l start index column fl <;> simp only [hs]
      · exact ih _ _ _ (by omega)
      · split_ifs <;> simp
      · simp

theorem parse_note_block_loop_nospin {bytes : List Nat} {l : Lex}
    {start line0 column0 : Nat} :
    ∀ fuel i line column, bytes.length - i < fuel →
      parse_note_block_loop bytes l start line0 column0 fuel i line column ≠ .spin := by
  intro fuel
  induction fuel with
  | zero => intro i line column hf; omega
  | succ n ih =>
    intro i line column hf
    simp only [parse_note_block_loop]
    split_ifs with h1 h2 h3 <;>
      first | exact ih _ _ _ (by omega) | simp

theorem parse_note_nospin (bytes : List Nat) (l : Lex) : parse_note bytes l ≠ .spin := by
  unfold parse_note
  split_ifs with h1 h2 h3 h4 <;>
    first | exact parse_note_block_loop_nospin _ _ _ _ (by omega) | simp

theorem parse_new_line_nospin (bytes : List Nat) (l : Lex) :
    parse_new_line bytes l ≠ .spin := by
  unfold parse_new_line
  split_ifs <;> simp

theorem parse_space_nospin (bytes : List Nat) (l : Lex) : parse_space bytes l ≠ .spin := by
  unfold parse_space
  split_ifs <;> simp

theorem parse_string_nospin (bytes : List Nat) (l : Lex) :
    parse_string bytes l ≠ .spin := by
  unfold parse_string
  split_ifs <;> first | exact parse_string_loop_nospin _ _ _ _ _ (by omega) | simp

theorem parse_char_nospin (bytes : List Nat) (l : Lex) : parse_char bytes l ≠ .spin := by
  unfold parse_char
  split_ifs <;> first | exact parse_char_loop_nospin _ _ _ _ _ (by omega) | simp

theorem parse_identifier_nospin (bytes : List Nat) (l : Lex) :
    parse_identifier bytes l ≠ .spin := by
  unfold parse_identifier
  split_ifs <;> first | exact parse_identifier_loop_nospin _ _ _ (by omega) | simp

theorem parse_operator_nospin (bytes : List Nat) (l : Lex) :
    parse_operator bytes l ≠ .spin := by
  unfold parse_operator
  split_ifs <;> simp

theorem parse_number_nospin (bytes : List Nat) (l : Lex) :
    parse_number bytes l ≠ .spin := by
  unfold parse_number
  split_ifs <;> first | exact parse_number_loop_nospin _ _ _ _ (by omega) | simp

theorem dispatch_nospin (bytes : List Nat) (l : Lex) : dispatch bytes l ≠ .spin := by
  unfold dispatch
  exact scanOr_ne_spin (parse_note_nospin bytes l)
    (scanOr_ne_spin (parse_new_line_nospin bytes l)
      (scanOr_ne_spin (parse_space_nospin bytes l)
        (scanOr_ne_spin (parse_string_nospin bytes l)
          (scanOr_ne_spin (parse_char_nospin bytes l)
            (scanOr_ne_spin (parse_identifier_nospin bytes l)
              (scanOr_ne_spin (parse_operator_nospin bytes l)
                (parse_number_nospin bytes l)))))))

/-! ## Dispatch: what a consuming step guarantees -/

theorem dispatch_ok {bytes : List Nat} {l l' : Lex} (h : dispatch bytes l = .ok l') :
    ∃ t, l'.tokens = l.tokens ++ [t] ∧ t.source = slice bytes l.index l'.index ∧
      l.index < l'.index ∧ l'.index ≤ bytes.length := by
  unfold dispatch at h
  rcases scanOr_ok h with h | ⟨-, h⟩
  · exact parse_note_ok h
  rcases scanOr_ok h with h | ⟨-, h⟩
  · obtain ⟨he, hlt, hb⟩ := parse_new_line_ok h
    subst he
    refine ⟨_, rfl, ?_, Nat.lt_succ_self _, show l.index + 1 ≤ bytes.length by omega⟩
    show [10] = slice bytes l.index (l.index + 1)
    rw [slice_single bytes hlt, hb]
  rcases scanOr_ok h with h | ⟨-, h⟩
  · obtain ⟨he, hlt, hb⟩ := parse_space_ok h
    subst he
    refine ⟨_, rfl, ?_, Nat.lt_succ_self _, show l.index + 1 ≤ bytes.length by omega⟩
    show [32] = slice bytes l.index (l.index + 1)
    rw [slice_single bytes hlt, hb]
  rcases scanOr_ok h with h | ⟨-, h⟩
  · exact parse_string_ok h
  rcases scanOr_ok h with h | ⟨-, h⟩
  · exact parse_char_ok h
  rcases scanOr_ok h with h | ⟨-, h⟩
  · obtain ⟨t, h1, h2, h3, h4, -, -⟩ := parse_identifier_ok h
    exact ⟨t, h1, h2, h3, h4⟩
  rcases scanOr_ok h with h | ⟨-, h⟩
  · obtain ⟨he, hlt, hb⟩ := parse_operator_ok h
    subst he
    exact ⟨_, rfl, rfl, Nat.lt_succ_self _, show l.index + 1 ≤ bytes.length by omega⟩
  · obtain ⟨t, h1, h2, h3, h4, -, -⟩ := parse_number_ok h
    exact ⟨t, h1, h2, h3, h4⟩

theorem parse_new_line_declined {bytes : List Nat} {l : Lex}
    (h : parse_new_line bytes l = .declined) : bytes.getD l.index 0 ≠ 10 := by
  unfold parse_new_line at h
  split at h
  case isTrue hc => exact absurd h (by simp)
  case isFalse hc => simpa using hc

theorem parse_space_declined {bytes : List Nat} {l : Lex}
    (h : parse_space bytes l = .declined) : bytes.getD l.index 0 ≠ 32 := by
  unfold parse_space at h
  split at h
  case isTrue hc => exact absurd h (by simp)
  case isFalse hc => simpa using hc

theorem parse_string_declined {bytes : List Nat} {l : Lex}
    (h : parse_string bytes l = .declined) : bytes.getD l.index 0 ≠ 34 := by
  unfold parse_string at h
  split at h
  case isTrue hc => exact absurd h (parse_string_loop_ne_declined _ _ _ _ _)
  case isFalse hc => simpa using hc

theorem parse_char_declined {bytes : List Nat} {l : Lex}
    (h : parse_char bytes l = .declined) : bytes.getD l.index 0 ≠ 39 := by
  unfold parse_char at h
  split at h
  case isTrue hc => exact absurd h (parse_char_loop_ne_declined _ _ _ _ _)
  case isFalse hc => simpa using hc

theorem parse_identifier_declined {bytes : List Nat} {l : Lex}
    (h : parse_identifier bytes l = .declined) :
    isIdentStart (bytes.getD l.index 0) = false := by
  unfold parse_identifier at h
  split at h
  case isTrue hc => exact absurd h (parse_identifier_loop_ne_declined _ _ _)
  case isFalse hc => simpa using hc

theorem parse_operator_declined {bytes : List Nat} {l : Lex}
    (h : parse_operator bytes l = .declined) :
    isPunct (bytes.getD l.index 0) = false := by
  unfold parse_operator at h
  split at h
  case isTrue hc => exact absurd h (by simp)
  case isFalse hc => simpa using hc

theorem parse_number_declined {bytes : List Nat} {l : Lex}
    (h : parse_number bytes l = .declined) :
    isDigit (bytes.getD l.index 0) = false := by
  unfold parse_number at h
  split at h
  case isTrue hc => exact absurd h (parse_number_loop_ne_declined _ _ _ _)
  case isFalse hc => simpa using hc

theorem dispatch_not_declined {bytes : List Nat} {l : Lex}
    (hb : inStartSet (bytes.getD l.index 0) = true) :
    dispatch bytes l ≠ .declined := by
  intro h
  unfold dispatch at h
  obtain ⟨-, h⟩ := scanOr_declined h
  obtain ⟨h2, h⟩ := scanOr_declined h
  obtain ⟨h3, h⟩ := scanOr_declined h
  obtain ⟨h4, h⟩ := scanOr_declined h
  obtain ⟨h5, h⟩ := scanOr_declined h
  obtain ⟨h6, h⟩ := scanOr_declined h
  obtain ⟨h7, h8⟩ := scanOr_declined h
  have b2 := parse_new_line_declined h2
  have b3 := parse_space_declined h3
  have b4 := parse_string_declined h4
  have b5 := parse_char_declined h5
  have b6 := parse_identifier_declined h6
  have b7 := parse_operator_declined h7
  have b8 := parse_number_declined h8
  simp only [inStartSet, isIdentStart, isPunct, isDigit, Bool.or_eq_true, Bool.and_eq_true,
    decide_eq_true_eq, beq_iff_eq] at hb
  simp only [isIdentStart, Bool.or_eq_false_iff, Bool.and_eq_false_iff,
    decide_eq_false_iff_not, beq_eq_false_iff_ne, ne_eq] at b6
  simp only [isPunct, Bool.or_eq_false_iff, Bool.and_eq_false_iff,
    decide_eq_false_iff_not] at b7
  simp only [isDigit, Bool.and_eq_false_iff, decide_eq_false_iff_not] at b8
  omega

/-! ## Covering: the emitted lexemes tile the consumed range -/

theorem covers_le {bytes : List Nat} {us : List Token} :
    ∀ {i j : Nat}, covers bytes i j us → i ≤ j := by
  induction us with
  | nil => intro i j h; exact Nat.le_of_eq h
  | cons t ts ih =>
    intro i j h
    obtain ⟨k, h1, h2, h3, h4⟩ := h
    exact Nat.le_trans (Nat.le_of_lt h1) (ih h4)

theorem covers_join {bytes : List Nat} {us : List Token} :
    ∀ {i j : Nat}, covers bytes i j us → j ≤ bytes.length →
      (us.map Token.source).flatten = slice bytes i j := by
  induction us with
  | nil =>
    intro i j h hj
    subst h
    rw [slice_nil]
    rfl
  | cons t ts ih =>
    intro i j h hj
    obtain ⟨k, h1, h2, h3, h4⟩ := h
    have := covers_le h4
    calc (List.map Token.source (t :: ts)).flatten
        = t.source ++ (ts.map Token.source).flatten := rfl
      _ = slice bytes i k ++ slice bytes k j := by rw [h3, ih h4 hj]
      _ = slice bytes i j := slice_append bytes (Nat.le_of_lt h1) this

theorem covers_tile {bytes : List Nat} {us : List Token} :
    ∀ {i : Nat}, covers bytes i bytes.length us → lexemesTile bytes i us = true := by
  induction us with
  | nil =>
    intro i h
    simp only [lexemesTile, beq_iff_eq]
    exact h
  | cons t ts ih =>
    intro i h
    obtain ⟨k, h1, h2, h3, h4⟩ := h
    have hlen : t.source.length = k - i := by rw [h3]; exact slice_length bytes h2
    have hik : i + t.source.length = k := by omega
    simp only [lexemesTile, hik, Bool.and_eq_true, beq_iff_eq]
    exact ⟨h3, ih h4⟩

/-! ## The dispatch loop -/

theorem parseLoop_ok_covers {bytes : List Nat}
    (hstart : ∀ b ∈ bytes, inStartSet b = true) :
    ∀ fuel (l l' : Lex), l.index ≤ bytes.length →
      parseLoop bytes fuel l = some (.ok l') →
      ∃ us, l'.tokens = l.tokens ++ us ∧ covers bytes l.index l'.index us ∧
        l'.index = bytes.length := by
  intro fuel
  induction fuel with
  | zero => intro l l' hle h; exact absurd h (by simp [parseLoop])
  | succ n ih =>
    intro l l' hle h
    simp only [parseLoop] at h
    split_ifs at h with h1
    · cases hd : dispatch bytes l with
      | declined =>
        refine absurd hd (dispatch_not_declined (hstart _ ?_))
        rw [List.getD_eq_getElem bytes 0 h1]
        exact List.getElem_mem h1
      | ok l2 =>
        simp only [hd] at h
        obtain ⟨t, ht1, ht2, ht3, ht4⟩ := dispatch_ok hd
        obtain ⟨us, hu1, hu2, hu3⟩ := ih l2 l' ht4 h
        refine ⟨t :: us, ?_, ⟨l2.index, ht3, ht4, ht2, hu2⟩, hu3⟩
        rw [hu1, ht1, List.append_assoc]
        rfl
      | err e =>
        simp only [hd] at h
        exact absurd h (by simp)
      | spin => exact absurd hd (dispatch_nospin bytes l)
    · cases h
      exact ⟨[], by simp, rfl, by omega⟩

theorem parseLoop_total {bytes : List Nat} :
    ∀ fuel (l : Lex), bytes.length - l.index < fuel → parseLoop bytes fuel l ≠ none := by
  intro fuel
  induction fuel with
  | zero => intro l hf; omega
  | succ n ih =>
    intro l hf
    simp only [parseLoop]
    split_ifs with h1
    · cases hd : dispatch bytes l with
      | declined =>
        exact ih _ (show bytes.length - (l.index + 1) < n by omega)
      | ok l2 =>
        obtain ⟨t, -, -, ht3, ht4⟩ := dispatch_ok hd
        exact ih _ (by omega)
      | err e => simp
      | spin => exact absurd hd (dispatch_nospin bytes l)
    · simp

/-- Claim C10: the dispatch loop terminates on every finite buffer.  A
sub-scanner that consumes has strictly advanced the cursor index, so the
fuel `bytes.length + 1` supplied by `Lex.parse` always suffices and the
scan always produces a result (a token sequence or a fatal diagnostic). -/
theorem parse_terminates :
    (∀ (bytes : List Nat) (l l' : Lex), dispatch bytes l = .ok l' → l.index < l'.index) ∧
    (∀ (file : String) (bytes : List Nat), ∃ r, Lex.parse file bytes = some r) := by
  constructor
  · intro bytes l l' h
    obtain ⟨t, -, -, h3, -⟩ := dispatch_ok h
    exact h3
  · intro file bytes
    refine Option.ne_none_iff_exists'.mp (parseLoop_total _ _ ?_)
    show bytes.length - 0 < bytes.length + 1
    omega

/-- Witness for `parse_terminates`: its first conjunct applied at the
concrete one-byte buffer `" "`, whose dispatch step consumes the space. -/
theorem parse_terminates_witness : (0 : Nat) < 1 :=
  parse_terminates.1 [32] (Lex.new "f")
    { file := "f",
      tokens := [{ loc := { file := "f", line := 1, column := 1 },
                   token_type := .Space, source := [32] }],
      index := 1, line := 1, column := 2 }
    (by decide)

/-- Claim C7: for every input all of whose bytes lie in the sub-scanners'
start sets, a successful scan emits tokens whose lexemes are pairwise
non-overlapping consecutive slices of the buffer and whose concatenation
in order reproduces the byte sequence exactly. -/
theorem lexemes_round_trip (file : String) (bytes : List Nat) (l' : Lex)
    (hstart : ∀ b ∈ bytes, inStartSet b = true)
    (h : Lex.parse file bytes = some (.ok l')) :
    lexemesTile bytes 0 l'.tokens = true ∧
    (l'.tokens.map Token.source).flatten = bytes := by
  obtain ⟨us, hu1, hu2, hu3⟩ :=
    parseLoop_ok_covers hstart _ _ _ (show (0 : Nat) ≤ bytes.length by omega) h
  have htok : l'.tokens = us := by simpa [Lex.new] using hu1
  rw [htok]
  rw [hu3] at hu2
  constructor
  · exact covers_tile hu2
  · rw [covers_join hu2 (Nat.le_refl _)]
    exact slice_self bytes

/-- Witness for `lexemes_round_trip`: the input `ab 1;` scans to the four
tokens `ab`, `' '`, `1`, `;`, which tile and reassemble the buffer. -/
theorem lexemes_round_trip_witness :
    lexemesTile [97, 98, 32, 49, 59] 0
      [{ loc := { file := "f", line := 1, column := 1 },
         token_type := .Identifier, source := [97, 98] },
       { loc := { file := "f", line := 1, column := 3 },
         token_type := .Space, source := [32] },
       { loc := { file := "f", line := 1, column := 4 },
         token_type := .Number, source := [49] },
       { loc := { file := "f", line := 1, column := 5 },
         token_type := .Operator .OpEq, source := [59] }] = true ∧
    (List.map Token.source
      [{ loc := { file := "f", line := 1, column := 1 },
         token_type := .Identifier, source := [97, 98] },
       { loc := { file := "f", line := 1, column := 3 },
         token_type := .Space, source := [32] },
       { loc := { file := "f", line := 1, column := 4 },
         token_type := .Number, source := [49] },
       { loc := { file := "f", line := 1, column := 5 },
         token_type := .Operator .OpEq, source := [59] }]).flatten = [97, 98, 32, 49, 59] :=
  lexemes_round_trip "f" [97, 98, 32, 49, 59]
    { file := "f",
      tokens := [{ loc := { file := "f", line := 1, column := 1 },
                   token_type := .Identifier, source := [97, 98] },
                 { loc := { file := "f", line := 1, column := 3 },
                   token_type := .Space, source := [32] },
                 { loc := { file := "f", line := 1, column := 4 },
                   token_type := .Number, source := [49] },
                 { loc := { file := "f", line := 1, column := 5 },
                   token_type := .Operator .OpEq, source := [59] }],
      index := 5, line := 1, column := 6 }
    (by decide) (by decide)

/-! ## Column accounting of the loop-based sub-scanners -/

theorem parse_string_loop_column {bytes : List Nat} {l : Lex} {start : Nat} :
    ∀ fuel i skip line column l',
      parse_string_loop bytes l start fuel i skip line column = .ok l' →
      (∀ k, i ≤ k → k + 1 < l'.index → bytes.getD k 0 ≠ 10) →
      l'.column + i = column + l'.index ∧ l'.line = line := by
  intro fuel
  induction fuel with
  | zero => intro i skip line column l' h hn; exact absurd h (by simp [parse_string_loop])
  | succ n ih =>
    intro i skip line column l' h hn
    simp only [parse_string_loop] at h
    split_ifs at h with h1 h2 h3 h4 h5
    · cases h
      refine ⟨?_, rfl⟩
      show column + 1 + i = column + (i + 1)
      omega
    · obtain ⟨m, hm1, hm2, hm3, hm4⟩ := parse_string_loop_ok _ _ _ _ _ _ h
      obtain ⟨hcol, hline⟩ := ih _ _ _ _ _ h (fun k hk hk' => hn k (by omega) hk')
      exact ⟨by omega, hline⟩
    · obtain ⟨m, hm1, hm2, hm3, hm4⟩ := parse_string_loop_ok _ _ _ _ _ _ h
      obtain ⟨hcol, hline⟩ := ih _ _ _ _ _ h (fun k hk hk' => hn k (by omega) hk')
      exact ⟨by omega, hline⟩
    · obtain ⟨m, hm1, hm2, hm3, hm4⟩ := parse_string_loop_ok _ _ _ _ _ _ h
      refine absurd (beq_iff_eq.mp h5) (hn i (Nat.le_refl i) (by omega))
    · obtain ⟨m, hm1, hm2, hm3, hm4⟩ := parse_string_loop_ok _ _ _ _ _ _ h
      obtain ⟨hcol, hline⟩ := ih _ _ _ _ _ h (fun k hk hk' => hn k (by omega) hk')
      exact ⟨by omega, hline⟩

theorem parse_note_block_loop_column {bytes : List Nat} {l : Lex}
    {start line0 column0 : Nat} :
    ∀ fuel i line column l',
      parse_note_block_loop bytes l start line0 column0 fuel i line column = .ok l' →
      (∀ k, i ≤ k → k + 2 < l'.index → bytes.getD k 0 ≠ 10) →
      l'.column + i = column + l'.index ∧ l'.line = line := by
  intro fuel
  induction fuel with
  | zero => intro i line column l' h hn; exact absurd h (by simp [parse_note_block_loop])
  | succ n ih =>
    intro i line column l' h hn
    simp only [parse_note_block_loop] at h
    split_ifs at h with h1 h2 h3
    · obtain ⟨m, hm1, hm2, hm3, hm4⟩ := parse_note_block_loop_ok _ _ _ _ _ h
      refine absurd (beq_iff_eq.mp h2) (hn i (Nat.le_refl i) (by omega))
    · cases h
      refine ⟨?_, rfl⟩
      show column + 2 + i = column + (i + 2)
      omega
    · obtain ⟨m, hm1, hm2, hm3, hm4⟩ := parse_note_block_loop_ok _ _ _ _ _ h
      obtain ⟨hcol, hline⟩ := ih _ _ _ _ h (fun k hk hk' => hn k (by omega) hk')
      exact ⟨by omega, hline⟩

/-- The token appended by a sub-scanner is determined by the new token
list when the old one is known. -/
theorem append_token_eq {ts : List Token} {t t' : Token}
    (h : ts ++ [t] = ts ++ [t']) : t = t' := by
  have := List.append_cancel_left h
  simpa using this

/-- Claim C4, amended.  The committed cursor column after a consuming
sub-scanner step equals the opening column plus the lexeme length only for
the Whitespace, Operator, Identifier and Number scanners (the Newline
scanner resets it to 1).  The StringLiteral and CharLiteral scanners
commit the opening column plus the lexeme length minus one (stated for
literals with no embedded newline byte), and the block Comment scanner
commits the opening column plus the lexeme length minus two (again for
comments with no embedded newline): these three scanners lose one column
for one delimiter byte, respectively two for the `/*` opener.  The line
field is unchanged by all of them except Newline. -/
theorem committed_column_accounting :
    (∀ (bytes : List Nat) (l l' : Lex), parse_space bytes l = .ok l' →
      l'.column = l.column + 1 ∧ l'.line = l.line) ∧
    (∀ (bytes : List Nat) (l l' : Lex), parse_new_line bytes l = .ok l' →
      l'.column = 1 ∧ l'.line = l.line + 1) ∧
    (∀ (bytes : List Nat) (l l' : Lex), parse_operator bytes l = .ok l' →
      l'.column = l.column + 1 ∧ l'.line = l.line) ∧
    (∀ (bytes : List Nat) (l l' : Lex) (t : Token), parse_identifier bytes l = .ok l' →
      l'.tokens = l.tokens ++ [t] →
      l'.column = l.column + t.source.length ∧ l'.line = l.line) ∧
    (∀ (bytes : List Nat) (l l' : Lex) (t : Token), parse_number bytes l = .ok l' →
      l'.tokens = l.tokens ++ [t] →
      l'.column = l.column + t.source.length ∧ l'.line = l.line) ∧
    (∀ (bytes : List Nat) (l l' : Lex) (t : Token), parse_string bytes l = .ok l' →
      l'.tokens = l.tokens ++ [t] →
      (∀ k, l.index < k → k + 1 < l'.index → bytes.getD k 0 ≠ 10) →
      l'.column + 1 = l.column + t.source.length ∧ l'.line = l.line) ∧
    (∀ (bytes : List Nat) (l l' : Lex) (t : Token), parse_char bytes l = .ok l' →
      l'.tokens = l.tokens ++ [t] →
      l'.column + 1 = l.column + t.source.length ∧ l'.line = l.line) ∧
    (∀ (bytes : List Nat) (l l' : Lex) (t : Token), parse_note bytes l = .ok l' →
      l'.tokens = l.tokens ++ [t] →
      (∀ k, l.index + 1 < k → k + 2 < l'.index → bytes.getD k 0 ≠ 10) →
      l'.column + 2 = l.column + t.source.length ∧ l'.line = l.line) := by
  refine ⟨?_, ?_, ?_, ?_, ?_, ?_, ?_, ?_⟩
  · intro bytes l l' h
    obtain ⟨he, -, -⟩ := parse_space_ok h
    subst he
    exact ⟨rfl, rfl⟩
  · intro bytes l l' h
    obtain ⟨he, -, -⟩ := parse_new_line_ok h
    subst he
    exact ⟨rfl, rfl⟩
  · intro bytes l l' h
    obtain ⟨he, -, -⟩ := parse_operator_ok h
    subst he
    exact ⟨rfl, rfl⟩
  · intro bytes l l' t h htok
    obtain ⟨t', h1, h2, h3, h4, h5, h6⟩ := parse_identifier_ok h
    have ht : t = t' := append_token_eq (htok.symm.trans h1)
    subst ht
    have hlen : t.source.length = l'.index - l.index := by
      rw [h2]; exact slice_length bytes h4
    exact ⟨by omega, h5⟩
  · intro bytes l l' t h htok
    obtain ⟨t', h1, h2, h3, h4, h5, h6⟩ := parse_number_ok h
    have ht : t = t' := append_token_eq (htok.symm.trans h1)
    subst ht
    have hlen : t.source.length = l'.index - l.index := by
      rw [h2]; exact slice_length bytes h4
    exact ⟨by omega, h5⟩
  · intro bytes l l' t h htok hn
    unfold parse_string at h
    split at h
    case isFalse => exact absurd h (by simp)
    case isTrue hb =>
      obtain ⟨m, h1, h2, h3, h4⟩ := parse_string_loop_ok _ _ _ _ _ _ h
      have ht : t = { loc := { file := l.file, line := l.line, column := l.column },
                      token_type := .Str, source := slice bytes l.index (m + 1) } :=
        append_token_eq (htok.symm.trans h4)
      obtain ⟨hcol, hline⟩ := parse_string_loop_column _ _ _ _ _ _ h
        (fun k hk hk' => hn k (by omega) hk')
      have hlen : t.source.length = m + 1 - l.index := by
        rw [ht]
        show (slice bytes l.index (m + 1)).length = m + 1 - l.index
        exact slice_length bytes (by omega)
      exact ⟨by omega, hline⟩
  · intro bytes l l' t h htok
    unfold parse_char at h
    split at h
    case isFalse => exact absurd h (by simp)
    case isTrue hb =>
      obtain ⟨m, h1, h2, h3, h4, h5, h6⟩ := parse_char_loop_ok _ _ _ _ _ _ h
      have ht : t = { loc := { file := l.file, line := l.line, column := l.column },
                      token_type := .Char, source := slice bytes l.index (m + 1) } :=
        append_token_eq (htok.symm.trans h6)
      have hlen : t.source.length = m + 1 - l.index := by
        rw [ht]
        show (slice bytes l.index (m + 1)).length = m + 1 - l.index
        exact slice_length bytes (by omega)
      exact ⟨by omega, h4⟩
  · intro bytes l l' t h htok hn
    unfold parse_note at h
    split_ifs at h with h1 h2 h3 h4
    obtain ⟨m, hm1, hm2, hm3, hm4⟩ := parse_note_block_loop_ok _ _ _ _ _ h
    have ht : t = { loc := { file := l.file, line := l.line, column := l.column },
                    token_type := .Note, source := slice bytes l.index (m + 2) } :=
      append_token_eq (htok.symm.trans hm4)
    obtain ⟨hcol, hline⟩ := parse_note_block_loop_column _ _ _ _ _ h
      (fun k hk hk' => hn k (by omega) hk')
    have hlen : t.source.length = m + 2 - l.index := by
      rw [ht]
      show (slice bytes l.index (m + 2)).length = m + 2 - l.index
      exact slice_length bytes hm2
    exact ⟨by omega, hline⟩

/-- Witness for `committed_column_accounting`: its string-literal conjunct
applied to the literal `"a"` at the start of the buffer: the committed
column 3 plus 1 equals the opening column 1 plus the lexeme length 3, and
the committed line 1 equals the opening line 1. -/
theorem committed_column_accounting_witness : (3 : Nat) + 1 = 1 + 3 ∧ (1 : Nat) = 1 :=
  committed_column_accounting.2.2.2.2.2.1 [34, 97, 34] (Lex.new "f")
    { file := "f",
      tokens := [{ loc := { file := "f", line := 1, column := 1 },
                   token_type := .Str, source := [34, 97, 34] }],
      index := 3, line := 1, column := 3 }
    { loc := { file := "f", line := 1, column := 1 },
      token_type := .Str, source := [34, 97, 34] }
    (by decide) (by decide)
    (by intro k hk1 hk2
        have hk1' : 0 < k := hk1
        have hk2' : k + 1 < 3 := hk2
        have hk : k = 1 := by omega
        subst hk
        decide)

/-! ## Error-flag preservation inside the number scanner -/

theorem parse_number_step_err (bytes : List Nat) (l : Lex) (start index column : Nat)
    {fl : NumFlags} (he : fl.err_token = true) :
    parse_number_step bytes l start index column fl = .stop ∨
    ∃ fl', parse_number_step bytes l start index column fl = .cont fl' ∧
      fl'.err_token = true := by
  unfold parse_number_step
  cases numByteClass (bytes.getD index 0) <;> simp only [he] <;>
    first
      | exact Or.inl rfl
      | exact Or.inl trivial
      | exact Or.inr ⟨_, rfl, he⟩
      | exact Or.inr ⟨_, rfl, rfl⟩

theorem parse_number_loop_err {bytes : List Nat} {l : Lex} {start : Nat} :
    ∀ fuel index column fl l', fl.err_token = true →
      parse_number_loop bytes l start fuel index column fl ≠ .ok l' := by
  intro fuel
  induction fuel with
  | zero => intro index column fl l' he; simp [parse_number_loop]
  | succ n ih =>
    intro index column fl l' he
    simp only [parse_number_loop]
    by_cases h1 : bytes.length ≤ index
    · rw [if_pos h1, if_pos he]
      simp
    · rw [if_neg h1]
      rcases parse_number_step_err bytes l start index column he with hs | ⟨fl', hs, he'⟩
      · simp only [hs]
        rw [if_pos he]
        simp
      · simp only [hs]
        exact ih _ _ _ _ he'

/-! ## Claim theorems on concrete inputs -/

/-- Claim C1 (code_bug evidence): scanning the `\n`-terminated line comment
`//x` fails fatally with the `'//' Missing ending` diagnostic instead of
emitting a Comment token, because the end-of-buffer check of the
line-comment loop (`bytes.len() >= self.index`) is true on its first
iteration for every input. -/
theorem lineComment_always_fatal (f : String) :
    Lex.parse f [47, 47, 120, 10] = some (.error .lineMissingEnd) := rfl

/-- Claim C2 (code_bug evidence): the char-literal budget is the absolute
buffer index 2, not an offset from the literal's start.  The literal `'a'`
scans successfully at buffer position 0, but the same literal preceded by
one space dies with the more-than-one-character diagnostic. -/
theorem charLiteral_budget_is_absolute (f : String) :
    Lex.parse f [39, 97, 39] = some (.ok
      { file := f,
        tokens := [{ loc := { file := f, line := 1, column := 1 },
                     token_type := .Char, source := [39, 97, 39] }],
        index := 3, line := 1, column := 3 }) ∧
    Lex.parse f [32, 39, 97, 39] = some (.error (.charTooMany f 1 2)) :=
  ⟨rfl, rfl⟩

/-- Claim C3 counterexample: in the input `"\\""` (quote, backslash,
backslash, quote, quote) the second backslash re-sets the escape flag, so
the quote that immediately follows the two backslashes does NOT terminate
the literal; the whole five-byte input becomes a single Str token, whereas
the claim predicts a four-byte lexeme. -/
theorem string_escape_after_double_backslash :
    Lex.parse "f" [34, 92, 92, 34, 34] = some (.ok
      { file := "f",
        tokens := [{ loc := { file := "f", line := 1, column := 1 },
                     token_type := .Str, source := [34, 92, 92, 34, 34] }],
        index := 5, line := 1, column := 5 }) ∧
    [34, 92, 92, 34, 34] ≠ [34, 92, 92, 34] :=
  ⟨rfl, by decide⟩

/-- Claim C4 counterexample: scanning the three-byte string literal `"a"`
from the initial cursor commits column 3, not opening column plus lexeme
length (1 + 3 = 4): the string scanner loses one column. -/
theorem string_commits_column_off_by_one :
    parse_string [34, 97, 34] (Lex.new "f") = .ok
      { file := "f",
        tokens := [{ loc := { file := "f", line := 1, column := 1 },
                     token_type := .Str, source := [34, 97, 34] }],
        index := 3, line := 1, column := 3 } ∧
    (3 : Nat) ≠ 1 + 3 :=
  ⟨rfl, by decide⟩

/-- Claim C5: scanning `089 ` fails fatally with the octal-overflow
diagnostic, reported at line 1 column 2, the position of the out-of-range
digit `8` itself (not deferred to the end of the run). -/
theorem octal_overflow_immediate (f : String) :
    Lex.parse f [48, 56, 57, 32] = some (.error (.octOverflow f 1 2)) := rfl

/-- Claim C6: scanning `0x1A3f ` succeeds and emits exactly one Number
token with lexeme `0x1A3f` (plus the trailing Space trivia token): the `x`
after the lone leading `0` switches octal to hex and the hex letters are
accepted. -/
theorem hex_literal_accepted (f : String) :
    Lex.parse f [48, 120, 49, 65, 51, 102, 32] = some (.ok
      { file := f,
        tokens := [{ loc := { file := f, line := 1, column := 1 },
                     token_type := .Number, source := [48, 120, 49, 65, 51, 102] },
                   { loc := { file := f, line := 1, column := 7 },
                     token_type := .Space, source := [32] }],
        index := 7, line := 1, column := 8 }) := rfl

/-- Claim C3, amended.  Inside a string literal a `\` byte always sets the
escape-pending flag for the next byte, even when that `\` was itself
escaped: after two consecutive backslashes the flag is therefore still
set, and a `"` immediately following `\\` is treated as escaped rather
than terminating.  An unescaped `"` does end the literal inclusive of both
quotes, and `"a\"b"` yields one StringLiteral token whose lexeme is the
entire quoted run with the escape sequence left unprocessed. -/
theorem string_escape_flag_behavior :
    (∀ (bytes : List Nat) (l : Lex) (start fuel i : Nat) (skip : Bool) (line column : Nat),
      i < bytes.length → bytes.getD i 0 = 92 →
      parse_string_loop bytes l start (fuel + 1) i skip line column =
        parse_string_loop bytes l start fuel (i + 1) true line (column + 1)) ∧
    (∀ (bytes : List Nat) (l : Lex) (start fuel i line column : Nat),
      i < bytes.length → bytes.getD i 0 = 34 →
      parse_string_loop bytes l start (fuel + 1) i true line column =
        parse_string_loop bytes l start fuel (i + 1) false line (column + 1)) ∧
    (∀ (bytes : List Nat) (l : Lex) (start fuel i line column : Nat),
      i < bytes.length → bytes.getD i 0 = 34 →
      parse_string_loop bytes l start (fuel + 1) i false line column =
        .ok { l with
              index := i + 1,
              line := line,
              column := column + 1,
              tokens := l.tokens ++
                [{ loc := { file := l.file, line := l.line, column := l.column },
                   token_type := .Str, source := slice bytes start (i + 1) }] }) ∧
    (∀ f : String, Lex.parse f [34, 97, 92, 34, 98, 34] = some (.ok
      { file := f,
        tokens := [{ loc := { file := f, line := 1, column := 1 },
                     token_type := .Str, source := [34, 97, 92, 34, 98, 34] }],
        index := 6, line := 1, column := 6 })) := by
  refine ⟨?_, ?_, ?_, fun f => rfl⟩
  · intro bytes l start fuel i skip line column hlt hb
    simp only [parse_string_loop]
    rw [if_neg (show ¬bytes.length ≤ i by omega), hb]
    simp
  · intro bytes l start fuel i line column hlt hb
    simp only [parse_string_loop]
    rw [if_neg (show ¬bytes.length ≤ i by omega), hb]
    simp
  · intro bytes l start fuel i line column hlt hb
    simp only [parse_string_loop]
    rw [if_neg (show ¬bytes.length ≤ i by omega), hb]
    simp

/-- Witness for `string_escape_flag_behavior`: its first conjunct applied
at the second backslash of `"\\""` (index 2, escape flag already set): the
step re-sets the flag rather than clearing it. -/
theorem string_escape_flag_behavior_witness :
    parse_string_loop [34, 92, 92, 34, 34] (Lex.new "f") 0 5 2 true 1 3 =
      parse_string_loop [34, 92, 92, 34, 34] (Lex.new "f") 0 4 3 true 1 4 :=
  string_escape_flag_behavior.1 [34, 92, 92, 34, 34] (Lex.new "f") 0 4 2 true 1 3
    (by decide) (by decide)

/-- Claim C9: in the numeric scanner, an `f`/`F` byte met while hex is not
active and whose previous byte is a digit marks the literal as float when
the float flag is clear, and sets the deferred error flag when the float
flag is already set; and once the deferred error flag is set the run can
never succeed and emit a Number token. -/
theorem float_suffix_behavior :
    (∀ (bytes : List Nat) (l : Lex) (start index column : Nat) (fl : NumFlags),
      (bytes.getD index 0 = 102 ∨ bytes.getD index 0 = 70) →
      fl.hex_num = false → fl.err_token = false → index ≠ start →
      isDigit (bytes.getD (index - 1) 0) = true → fl.f_flag = false →
      parse_number_step bytes l start index column fl = .cont { fl with f_flag := true }) ∧
    (∀ (bytes : List Nat) (l : Lex) (start index column : Nat) (fl : NumFlags),
      (bytes.getD index 0 = 102 ∨ bytes.getD index 0 = 70) →
      fl.hex_num = false → fl.err_token = false → index ≠ start →
      isDigit (bytes.getD (index - 1) 0) = true → fl.f_flag = true →
      parse_number_step bytes l start index column fl = .cont { fl with err_token := true }) ∧
    (∀ (bytes : List Nat) (l : Lex) (start fuel index column : Nat) (fl : NumFlags)
      (l' : Lex), fl.err_token = true →
      parse_number_loop bytes l start fuel index column fl ≠ .ok l') := by
  refine ⟨?_, ?_, ?_⟩
  · intro bytes l start index column fl hb hhex herr hne hdig hf
    have hc : numByteClass (bytes.getD index 0) = .fLetter := by
      rcases hb with hb | hb <;> rw [hb] <;> rfl
    have hcond : (index != start && isDigit (bytes.getD (index - 1) 0)) = true := by
      rw [hdig, Bool.and_true, bne_iff_ne]
      exact hne
    unfold parse_number_step
    rw [hc]
    simp only [herr, hhex, hcond, hf]
    rfl
  · intro bytes l start index column fl hb hhex herr hne hdig hf
    have hc : numByteClass (bytes.getD index 0) = .fLetter := by
      rcases hb with hb | hb <;> rw [hb] <;> rfl
    have hcond : (index != start && isDigit (bytes.getD (index - 1) 0)) = true := by
      rw [hdig, Bool.and_true, bne_iff_ne]
      exact hne
    unfold parse_number_step
    rw [hc]
    simp only [herr, hhex, hcond, hf]
    rfl
  · intro bytes l start fuel index column fl l' he
    exact parse_number_loop_err fuel index column fl l' he

/-- Witness for `float_suffix_behavior`: the first conjunct applied at the
`f` of `1f` (decimal flag set, float flag clear), and the third conjunct
applied to a state whose deferred error flag is set. -/
theorem float_suffix_behavior_witness :
    parse_number_step [49, 102] (Lex.new "f") 0 1 2
        { f_flag := false, bin_num := false, oct_num := false, hex_num := false,
          dec_num := true, err_token := false } =
      .cont { f_flag := true, bin_num := false, oct_num := false, hex_num := false,
              dec_num := true, err_token := false } ∧
    parse_number_loop [49, 102] (Lex.new "f") 0 3 0 1
        { f_flag := false, bin_num := false, oct_num := false, hex_num := false,
          dec_num := false, err_token := true } ≠ .ok (Lex.new "f") :=
  ⟨float_suffix_behavior.1 [49, 102] (Lex.new "f") 0 1 2
      { f_flag := false, bin_num := false, oct_num := false, hex_num := false,
        dec_num := true, err_token := false }
      (Or.inl (by decide)) rfl rfl (by decide) (by decide) rfl,
   float_suffix_behavior.2.2 [49, 102] (Lex.new "f") 0 3 0 1
      { f_flag := false, bin_num := false, oct_num := false, hex_num := false,
        dec_num := false, err_token := true }
      (Lex.new "f") rfl⟩

/-! ## The renderer -/

theorem renderStep_trivia {t : Token} (htr : isTrivia t = true) (acc : String) :
    renderStep acc t = acc := by
  unfold isTrivia at htr
  unfold renderStep
  rcases t with ⟨loc, tt, src⟩
  cases tt <;> first | rfl | simp at htr

theorem renderStep_not_trivia {t : Token} (htr : isTrivia t = false) (acc : String) :
    renderStep acc t = acc ++ (t.render ++ "\n") := by
  unfold isTrivia at htr
  unfold renderStep
  rcases t with ⟨loc, tt, src⟩
  cases tt <;> first | rfl | simp at htr

theorem render_fold_data (ts : List Token) :
    ∀ acc : String, (ts.foldl renderStep acc).data =
      acc.data ++
        ((ts.filter (fun t => !isTrivia t)).map (fun t => t.render.data ++ ['\n'])).flatten := by
  induction ts with
  | nil => intro acc; simp
  | cons t ts ih =>
    intro acc
    rw [List.foldl_cons, List.filter_cons]
    by_cases htr : isTrivia t = true
    · rw [renderStep_trivia htr, ih]
      simp [htr]
    · have htr' : isTrivia t = false := by
        cases hb : isTrivia t
        · rfl
        · exact absurd hb htr
      rw [renderStep_not_trivia htr', ih]
      simp [htr', String.data_append, List.append_assoc]

theorem flatten_newline_dropLast :
    ∀ ls : List String,
      ((ls.map (fun s => s.data ++ ['\n'])).flatten).dropLast = (joinLines ls).data := by
  intro ls
  induction ls with
  | nil => rfl
  | cons s ss ih =>
    cases ss with
    | nil => simp [joinLines, List.dropLast_concat]
    | cons s2 ss2 =>
      rw [List.map_cons, List.flatten_cons]
      have hne : ((List.map (fun s => s.data ++ ['\n']) (s2 :: ss2)).flatten) ≠ [] := by
        simp
      rw [List.dropLast_append_of_ne_nil _ hne, ih]
      show _ = (s ++ "\n" ++ joinLines (s2 :: ss2)).data
      simp [String.data_append, List.append_assoc]

/-- Claim C8: `Lex::show` renders exactly one line per non-trivia token,
in token order, joined by single newlines with no trailing newline; with
zero qualifying tokens the output is the empty string (the final pop on
the empty accumulator is a no-op). -/
theorem render_output_format (ts : List Token) :
    Lex.render ts = joinLines ((ts.filter (fun t => !isTrivia t)).map Token.render) := by
  apply String.ext
  show ((ts.foldl renderStep "").data).dropLast = _
  rw [render_fold_data]
  show (([] : List Char) ++ _).dropLast = _
  rw [List.nil_append]
  have h2 := flatten_newline_dropLast ((ts.filter (fun t => !isTrivia t)).map Token.render)
  rw [List.map_map] at h2
  exact h2

end Ncc
